import Mathlib

/-!
Verification of the PikPak Stremio addon (`api/index.py`) against its
natural-language specification.  The Python source is shallowly embedded:
strings are `List Char`, dictionaries with optional keys are structures with
`Option` fields, exceptions are `Except`, and the externally observable
effects of a request handler (upstream calls, cache writes) are recorded in
an explicit trace.
-/

namespace PikPak

/-! ## Name normalization (`normalize`, index.py lines 87-90)

Python:
    text = text.lower()
    text = re.sub(r"[^a-z0-9 ]", " ", text)
    return re.sub(r"\s+", " ", text).strip()

`Char.toLower` models `str.lower` (ASCII case mapping).  After the first
substitution the string only holds characters in `[a-z0-9 ]`, so the final
`\s+` collapse only ever sees runs of plain spaces; `collapse` merges such
runs and `strip` removes the outer spaces, exactly as `.strip()` does. -/

def allowedChar (c : Char) : Bool :=
  (decide (97 ≤ c.toNat) && decide (c.toNat ≤ 122)) ||
  (decide (48 ≤ c.toNat) && decide (c.toNat ≤ 57)) ||
  decide (c.toNat = 32)

def substChar (c : Char) : Char :=
  if allowedChar c then c else ' '

def normChar (c : Char) : Char :=
  substChar c.toLower

def collapse : List Char → List Char
  | [] => []
  | [c] => [c]
  | c :: d :: rest =>
    if c == ' ' && d == ' ' then collapse (d :: rest)
    else c :: collapse (d :: rest)

def stripL (l : List Char) : List Char :=
  l.dropWhile (fun c => c == ' ')

def strip (l : List Char) : List Char :=
  (stripL ((stripL l).reverse)).reverse

def normalize (s : List Char) : List Char :=
  strip (collapse (s.map normChar))

example : normalize "Inception.2010.1080p.BluRay.x264.mkv".data =
    "inception 2010 1080p bluray x264 mkv".data := by decide

example : normalize "  Hello---World  ".data = "hello world".data := by decide

/-! ### Facts about `normalize`, leading to idempotence -/

theorem normChar_allowed (c : Char) : allowedChar (normChar c) = true := by
  unfold normChar substChar
  split
  next h => exact h
  next h => decide

theorem toLower_eq_self_of_allowed {c : Char} (h : allowedChar c = true) :
    c.toLower = c := by
  have h2 : ¬ (c.toNat ≥ 65 ∧ c.toNat ≤ 90) := by
    unfold allowedChar at h
    simp only [Bool.or_eq_true, Bool.and_eq_true, decide_eq_true_eq] at h
    omega
  unfold Char.toLower
  simp [h2]

theorem normChar_eq_self_of_allowed {c : Char} (h : allowedChar c = true) :
    normChar c = c := by
  unfold normChar substChar
  rw [toLower_eq_self_of_allowed h, if_pos h]

theorem map_normChar_eq_self :
    ∀ {l : List Char}, (∀ c ∈ l, allowedChar c = true) → l.map normChar = l
  | [], _ => rfl
  | c :: r, h => by
    simp only [List.map_cons]
    rw [normChar_eq_self_of_allowed (h c (List.mem_cons_self c r)),
      map_normChar_eq_self (fun d hd => h d (List.mem_cons_of_mem c hd))]

theorem mem_collapse {c : Char} : ∀ l : List Char, c ∈ collapse l → c ∈ l
  | [] => by simp [collapse]
  | [d] => by simp [collapse]
  | d :: e :: rest => by
    intro h
    by_cases hde : (d == ' ' && e == ' ') = true
    · rw [collapse, if_pos hde] at h
      exact List.mem_cons_of_mem _ (mem_collapse (e :: rest) h)
    · rw [collapse, if_neg hde] at h
      rcases List.mem_cons.mp h with h1 | h2
      · exact h1 ▸ List.mem_cons_self _ _
      · exact List.mem_cons_of_mem _ (mem_collapse (e :: rest) h2)

theorem collapse_cons (e : Char) :
    ∀ rest : List Char, ∃ t, collapse (e :: rest) = e :: t
  | [] => ⟨[], rfl⟩
  | f :: r => by
    by_cases hef : (e == ' ' && f == ' ') = true
    · obtain ⟨t, ht⟩ := collapse_cons f r
      have he : e = ' ' := by
        have := (Bool.and_eq_true _ _).mp hef |>.1
        exact beq_iff_eq.mp this
      have hf : f = ' ' := by
        have := (Bool.and_eq_true _ _).mp hef |>.2
        exact beq_iff_eq.mp this
      refine ⟨t, ?_⟩
      rw [collapse, if_pos hef, ht, hf, he]
    · exact ⟨collapse (f :: r), by rw [collapse, if_neg hef]⟩

def noDouble : List Char → Bool
  | c :: d :: rest => !(c == ' ' && d == ' ') && noDouble (d :: rest)
  | _ => true

theorem noDouble_collapse : ∀ l : List Char, noDouble (collapse l) = true
  | [] => rfl
  | [_] => rfl
  | d :: e :: rest => by
    by_cases hde : (d == ' ' && e == ' ') = true
    · rw [collapse, if_pos hde]
      exact noDouble_collapse (e :: rest)
    · obtain ⟨t, ht⟩ := collapse_cons e rest
      have ih := noDouble_collapse (e :: rest)
      rw [collapse, if_neg hde, ht]
      rw [ht] at ih
      have hfalse : (d == ' ' && e == ' ') = false := eq_false_of_ne_true hde
      simp [noDouble, hfalse, ih]

theorem noDouble_tail {a : Char} {l : List Char}
    (h : noDouble (a :: l) = true) : noDouble l = true := by
  cases l with
  | nil => rfl
  | cons b r =>
    rw [noDouble, Bool.and_eq_true] at h
    exact h.2

theorem noDouble_suffix {l₁ l₂ : List Char} (h : l₁ <:+ l₂)
    (hd : noDouble l₂ = true) : noDouble l₁ = true := by
  obtain ⟨t, rfl⟩ := h
  induction t with
  | nil => exact hd
  | cons a t ih => exact ih (noDouble_tail hd)

theorem noDouble_iff_chain :
    ∀ l : List Char,
      (noDouble l = true ↔ List.Chain' (fun a b => (a == ' ' && b == ' ') = false) l)
  | [] => by simp [noDouble]
  | [c] => by simp [noDouble]
  | a :: b :: r => by
    rw [List.chain'_cons, noDouble, Bool.and_eq_true, Bool.not_eq_true',
      noDouble_iff_chain (b :: r)]

theorem noDouble_reverse {l : List Char} (h : noDouble l = true) :
    noDouble l.reverse = true := by
  rw [noDouble_iff_chain] at h ⊢
  rw [List.chain'_reverse]
  refine h.imp ?_
  intro a b hab
  show (b == ' ' && a == ' ') = false
  rwa [Bool.and_comm]

theorem collapse_eq_self_of_noDouble :
    ∀ l : List Char, noDouble l = true → collapse l = l
  | [], _ => rfl
  | [_], _ => rfl
  | a :: b :: r, h => by
    rw [noDouble, Bool.and_eq_true, Bool.not_eq_true'] at h
    rw [collapse, if_neg (by simp [h.1]), collapse_eq_self_of_noDouble (b :: r) h.2]

theorem stripL_noLead :
    ∀ l : List Char, ∀ c, (stripL l).head? = some c → c ≠ ' '
  | [] => by simp [stripL]
  | a :: r => by
    by_cases ha : (a == ' ') = true
    · rw [stripL, List.dropWhile_cons, if_pos ha]
      exact stripL_noLead r
    · rw [stripL, List.dropWhile_cons, if_neg ha]
      intro c hc
      obtain rfl : a = c := by simpa using hc
      simpa using ha

theorem stripL_eq_self {l : List Char}
    (h : ∀ c, l.head? = some c → c ≠ ' ') : stripL l = l := by
  cases l with
  | nil => rfl
  | cons a r =>
    have ha : a ≠ ' ' := h a rfl
    rw [stripL, List.dropWhile_cons, if_neg (by simpa using ha)]

theorem stripL_stripL (l : List Char) : stripL (stripL l) = stripL l :=
  stripL_eq_self (stripL_noLead l)

theorem stripL_suffix (l : List Char) : stripL l <:+ l :=
  List.dropWhile_suffix _

theorem suffix_getLast? {l₁ l₂ : List Char} (h : l₁ <:+ l₂) (hne : l₁ ≠ []) :
    l₂.getLast? = l₁.getLast? := by
  obtain ⟨t, rfl⟩ := h
  exact List.getLast?_append_of_ne_nil t hne

theorem mem_stripL {c : Char} {l : List Char} (h : c ∈ stripL l) : c ∈ l :=
  (stripL_suffix l).sublist.subset h

theorem mem_normalize_allowed {s : List Char} {c : Char}
    (h : c ∈ normalize s) : allowedChar c = true := by
  unfold normalize strip at h
  rw [List.mem_reverse] at h
  have h1 : c ∈ (stripL (collapse (s.map normChar))).reverse := mem_stripL h
  rw [List.mem_reverse] at h1
  have h2 : c ∈ collapse (s.map normChar) := mem_stripL h1
  have h3 : c ∈ s.map normChar := mem_collapse _ h2
  obtain ⟨d, _, rfl⟩ := List.mem_map.mp h3
  exact normChar_allowed d

theorem noDouble_normalize (s : List Char) : noDouble (normalize s) = true := by
  unfold normalize strip
  exact noDouble_reverse (noDouble_suffix (stripL_suffix _)
    (noDouble_reverse (noDouble_suffix (stripL_suffix _)
      (noDouble_collapse (s.map normChar)))))

theorem normalize_noLead (s : List Char) :
    ∀ c, (normalize s).head? = some c → c ≠ ' ' := by
  intro c hc
  unfold normalize strip at hc
  rw [List.head?_reverse] at hc
  set A := stripL (collapse (s.map normChar)) with hA
  set B := stripL A.reverse with hB
  have hBne : B ≠ [] := by
    intro hnil
    rw [hnil] at hc
    simp at hc
  have h1 : A.reverse.getLast? = B.getLast? :=
    suffix_getLast? (stripL_suffix A.reverse) hBne
  rw [← h1, List.getLast?_reverse] at hc
  exact stripL_noLead _ c hc

theorem normalize_noLead_reverse (s : List Char) :
    ∀ c, (normalize s).reverse.head? = some c → c ≠ ' ' := by
  intro c hc
  unfold normalize strip at hc
  rw [List.reverse_reverse] at hc
  exact stripL_noLead _ c hc

theorem strip_eq_self {l : List Char}
    (h1 : ∀ c, l.head? = some c → c ≠ ' ')
    (h2 : ∀ c, l.reverse.head? = some c → c ≠ ' ') : strip l = l := by
  unfold strip
  rw [stripL_eq_self h1, stripL_eq_self h2, List.reverse_reverse]

/-- C8: the name-normalization function is idempotent:
`normalize (normalize x) = normalize x` for every input string `x`. -/
theorem C8_normalize_idempotent (s : List Char) :
    normalize (normalize s) = normalize s := by
  conv_lhs => rw [normalize]
  rw [map_normChar_eq_self (fun c hc => mem_normalize_allowed hc),
    collapse_eq_self_of_noDouble _ (noDouble_normalize s),
    strip_eq_self (normalize_noLead s) (normalize_noLead_reverse s)]

/-! ## Remote file entries and the stream matcher (index.py lines 26, 302-316)

A listed entry is a dictionary; the handler reads `f.get("name")` and
`f.get("id")`, so both are optional, and Python truthiness makes the empty
string count as missing. -/

structure FileEntry where
  name : Option (List Char)
  id : Option (List Char)
deriving DecidableEq

def VIDEO_EXT : List (List Char) :=
  [".mp4".data, ".mkv".data, ".avi".data, ".mov".data, ".webm".data,
   ".flv".data, ".ts".data]

/-- Models `name.lower().endswith(VIDEO_EXT)`. -/
def hasVideoExt (name : List Char) : Bool :=
  VIDEO_EXT.any (fun ext => ext.isSuffixOf (name.map Char.toLower))

/-- Models the Python substring test `pat in s`. -/
def containsSub (pat : List Char) : List Char → Bool
  | [] => pat.isEmpty
  | c :: rest => pat.isPrefixOf (c :: rest) || containsSub pat rest

/-- One iteration of the filter cascade in the stream handler
(index.py lines 302-316): skip entries with a falsy name or id, skip
non-video extensions, then require the normalized title as a substring of
the normalized filename and, when the year string is non-empty, the year
as a substring too.  `movieN` is the already-normalized movie title. -/
def matchesQuery (movieN year : List Char) (f : FileEntry) : Bool :=
  match f.name, f.id with
  | some name, some fid =>
    !name.isEmpty && !fid.isEmpty &&
    hasVideoExt name &&
    containsSub movieN (normalize name) &&
    (year.isEmpty || containsSub year (normalize name))
  | _, _ => false

/-- The candidate files the stream handler keeps for a movie query
(`movie_n = normalize(movie_title)` is computed once, line 295). -/
def matchCandidates (title year : List Char) (files : List FileEntry) :
    List FileEntry :=
  files.filter (matchesQuery (normalize title) year)

/-- C1 (amended): among enumerated entries that have a non-empty name and id
and whose lowercased name ends in a video extension, the matcher keeps a
file exactly when the normalized title is a substring of the normalized
filename and (the year is unknown or the year substring is present). -/
theorem C1_matcher_amended (title year : List Char) (files : List FileEntry)
    (f : FileEntry) (name fid : List Char)
    (hn : f.name = some name) (hi : f.id = some fid)
    (hne : name.isEmpty = false) (hie : fid.isEmpty = false)
    (hext : hasVideoExt name = true) :
    f ∈ matchCandidates title year files ↔
      f ∈ files ∧ containsSub (normalize title) (normalize name) = true ∧
        (year.isEmpty = true ∨ containsSub year (normalize name) = true) := by
  simp only [matchCandidates, List.mem_filter, matchesQuery, hn, hi, hne, hie,
    hext, Bool.not_false, Bool.true_and, Bool.and_eq_true, Bool.or_eq_true,
    and_assoc]

def c1WitnessFile : FileEntry :=
  ⟨some "Inception.2010.1080p.BluRay.x264.mkv".data, some "f2".data⟩

theorem C1_witness :
    c1WitnessFile ∈
      matchCandidates "Inception".data "2010".data [c1WitnessFile] :=
  (C1_matcher_amended "Inception".data "2010".data [c1WitnessFile]
      c1WitnessFile "Inception.2010.1080p.BluRay.x264.mkv".data "f2".data
      rfl rfl (by decide) (by decide) (by decide)).mpr
    ⟨List.mem_cons_self _ _, by decide, Or.inr (by decide)⟩

def c1CexFile : FileEntry :=
  ⟨some "Inception.2010.1080p.txt".data, some "f1".data⟩

/-- C1 counterexample: a filename that contains both the normalized title
and the year substring is nonetheless excluded, because the handler also
filters on video file extensions (line 308) — so "included exactly when the
title substring and year substring are present" fails as stated over all
enumerated filenames. -/
theorem C1_counterexample :
    containsSub (normalize "Inception".data)
        (normalize "Inception.2010.1080p.txt".data) = true ∧
      containsSub "2010".data (normalize "Inception.2010.1080p.txt".data) = true ∧
      matchCandidates "Inception".data "2010".data [c1CexFile] = [] := by
  decide

/-! ## Recursive folder enumeration (`collect_files`, index.py lines 180-193)

`collect_files` asks the upstream for the children of a folder and walks the
answer in order: entries whose `kind` is `drive#folder` are recursed into
(their files appear inline, depth first), everything else is appended.  A
finite acyclic folder tree is modelled by the mutual inductive below; leaf
payloads are the same `FileEntry` dictionaries the matcher consumes. -/

mutual
inductive PkEntry : Type where
  | pkfile (f : FileEntry) : PkEntry
  | pkfolder (fid : List Char) (children : PkForest) : PkEntry
inductive PkForest : Type where
  | nil : PkForest
  | cons (e : PkEntry) (rest : PkForest) : PkForest
end

mutual
def collectE : PkEntry → List FileEntry
  | .pkfile f => [f]
  | .pkfolder _ cs => collectF cs
def collectF : PkForest → List FileEntry
  | .nil => []
  | .cons e rest => collectE e ++ collectF rest
end

mutual
def countE : PkEntry → Nat
  | .pkfile _ => 1
  | .pkfolder _ cs => countF cs
def countF : PkForest → Nat
  | .nil => 0
  | .cons e rest => countE e + countF rest
end

mutual
inductive FileInE : FileEntry → PkEntry → Prop where
  | here (f : FileEntry) : FileInE f (.pkfile f)
  | inFolder {f : FileEntry} (fid : List Char) {cs : PkForest} :
      FileInF f cs → FileInE f (.pkfolder fid cs)
inductive FileInF : FileEntry → PkForest → Prop where
  | head {f : FileEntry} {e : PkEntry} {rest : PkForest} :
      FileInE f e → FileInF f (.cons e rest)
  | tail {f : FileEntry} {e : PkEntry} {rest : PkForest} :
      FileInF f rest → FileInF f (.cons e rest)
end

mutual
theorem collectE_length : ∀ e : PkEntry, (collectE e).length = countE e
  | .pkfile _ => rfl
  | .pkfolder fid cs => by
    simp only [collectE, countE]
    exact collectF_length cs
theorem collectF_length : ∀ t : PkForest, (collectF t).length = countF t
  | .nil => rfl
  | .cons e rest => by
    simp only [collectF, countF, List.length_append]
    rw [collectE_length e, collectF_length rest]
end

mutual
theorem mem_collectE : ∀ (f : FileEntry) (e : PkEntry),
    f ∈ collectE e ↔ FileInE f e
  | f, .pkfile g => by
    simp only [collectE, List.mem_singleton]
    constructor
    · rintro rfl
      exact FileInE.here f
    · rintro h
      cases h
      rfl
  | f, .pkfolder fid cs => by
    simp only [collectE]
    rw [mem_collectF f cs]
    constructor
    · exact fun h => FileInE.inFolder fid h
    · rintro h
      cases h
      assumption
theorem mem_collectF : ∀ (f : FileEntry) (t : PkForest),
    f ∈ collectF t ↔ FileInF f t
  | f, .nil => by
    constructor
    · intro h
      exact absurd h (by simp [collectF])
    · intro h
      cases h
  | f, .cons e rest => by
    simp only [collectF, List.mem_append]
    rw [mem_collectE f e, mem_collectF f rest]
    constructor
    · rintro (h | h)
      · exact FileInF.head h
      · exact FileInF.tail h
    · rintro h
      cases h with
      | head h => exact Or.inl h
      | tail h => exact Or.inr h
end

/-- C7: recursive enumeration over any finite acyclic folder tree returns a
list whose length is exactly the number of non-folder entries in the tree,
and whose members are exactly the non-folder entries, regardless of the
tree's depth or shape. -/
theorem C7_collect_files (t : PkForest) (f : FileEntry) :
    (collectF t).length = countF t ∧ (f ∈ collectF t ↔ FileInF f t) :=
  ⟨collectF_length t, mem_collectF f t⟩

/-! ## Session manager (`get_client`, index.py lines 105-163)

`get_client` is embedded as a pure function over an environment describing
the outcomes of the external collaborators (warm module-global client,
stored redis record, probe / refresh / login success).  It returns the list
of upstream authentication calls issued, in order, plus `true` when a
client is returned and `false` when the final email login raises.  The
account credentials are assumed configured: the missing-environment-variable
branch (lines 119-120) raises before any upstream call and is outside every
claim. -/

structure AuthEnv where
  warm : Bool
  stored : Bool
  probeOk : Bool
  refreshOk : Bool
  loginOk : Bool
deriving DecidableEq

inductive AuthCall : Type where
  | probe : AuthCall
  | refresh : AuthCall
  | login : AuthCall
deriving DecidableEq

def get_client (force : Bool) (env : AuthEnv) : List AuthCall × Bool :=
  if env.warm && !force then ([], true)
  else if env.stored && !force then
    if env.probeOk then ([.probe], true)
    else if env.refreshOk then ([.probe, .refresh], true)
    else ([.probe, .refresh, .login], env.loginOk)
  else ([.login], env.loginOk)

/-- C3 (amended): in a fresh process (no warm in-process client), a stored
record whose probe succeeds never leads to a full email login; a stored
record whose probe fails leads to a refresh attempt, with a full login only
after the refresh also fails; an absent record leads directly to a full
login with no refresh attempt. -/
theorem C3_session_manager (env : AuthEnv) (hw : env.warm = false) :
    (env.stored = true → env.probeOk = true →
      AuthCall.login ∉ (get_client false env).1) ∧
    (env.stored = true → env.probeOk = false →
      (env.refreshOk = true → (get_client false env).1 = [.probe, .refresh]) ∧
      (env.refreshOk = false →
        (get_client false env).1 = [.probe, .refresh, .login])) ∧
    (env.stored = false → (get_client false env).1 = [.login]) := by
  obtain ⟨w, st, p, r, lo⟩ := env
  simp only at hw
  subst hw
  revert st p r lo
  decide

theorem C3_witness :
    AuthCall.login ∉ (get_client false ⟨false, true, true, true, true⟩).1 :=
  (C3_session_manager ⟨false, true, true, true, true⟩ rfl).1 rfl rfl

/-- C3 counterexample: with no stored record (and no warm client), the code
jumps straight to the email login; no refresh-token refresh is attempted,
contradicting "given a record that is expired or absent, it attempts a
refresh-token refresh before falling back to a full login". -/
theorem C3_counterexample :
    (get_client false ⟨false, false, true, true, true⟩).1 = [AuthCall.login] ∧
      AuthCall.refresh ∉ (get_client false ⟨false, false, true, true, true⟩).1 := by
  decide

/-! ## Retry-once wrapper (`with_relogin`, index.py lines 166-175)

The wrapped upstream call is described by its first and (potential) retry
outcome.  A failure is classified as unauthorized by substring-matching the
lowercased message, exactly as the Python does.  The forced re-login is
`get_client(force_login=True)` over the same environment; when the login
raises, its exception propagates out of the handler and the retry never
runs, which the model records with `loginErr`. -/

structure CallEnv where
  auth : AuthEnv
  first : Except (List Char) Nat
  second : Except (List Char) Nat
  loginErr : List Char

def isUnauthorizedMsg (m : List Char) : Bool :=
  containsSub "401".data (m.map Char.toLower) ||
  containsSub "unauthorized".data (m.map Char.toLower)

structure RelTrace where
  fnCalls : Nat
  forcedRelogins : Nat
  result : Except (List Char) Nat

def with_relogin (env : CallEnv) : RelTrace :=
  match env.first with
  | .ok v => ⟨1, 0, .ok v⟩
  | .error m =>
    if isUnauthorizedMsg m then
      if (get_client true env.auth).2 then
        match env.second with
        | .ok v => ⟨2, 1, .ok v⟩
        | .error m2 => ⟨2, 1, .error m2⟩
      else ⟨1, 1, .error env.loginErr⟩
    else ⟨1, 0, .error m⟩

/-- C4 (amended): an unauthorized-style failure triggers exactly one forced
re-login; when the re-login returns, exactly one retry of the original call
follows, a second failure being surfaced with no further retry; when the
re-login itself raises, its error is surfaced and the retry never runs; a
failure not classified as unauthorized is surfaced immediately with no
retry and no re-login. -/
theorem C4_with_relogin (env : CallEnv) (m : List Char)
    (hf : env.first = .error m) :
    (isUnauthorizedMsg m = true → (get_client true env.auth).2 = true →
      (with_relogin env).forcedRelogins = 1 ∧ (with_relogin env).fnCalls = 2 ∧
      (∀ v, env.second = .ok v → (with_relogin env).result = .ok v) ∧
      (∀ m2, env.second = .error m2 →
        (with_relogin env).result = .error m2)) ∧
    (isUnauthorizedMsg m = true → (get_client true env.auth).2 = false →
      (with_relogin env).forcedRelogins = 1 ∧ (with_relogin env).fnCalls = 1 ∧
      (with_relogin env).result = .error env.loginErr) ∧
    (isUnauthorizedMsg m = false →
      with_relogin env = ⟨1, 0, .error m⟩) := by
  obtain ⟨a, fst, snd, le⟩ := env
  simp only at hf
  subst hf
  refine ⟨?_, ?_, ?_⟩
  · intro hu hl
    cases snd with
    | ok v => simp [with_relogin, hu, hl]
    | error m2 => simp [with_relogin, hu, hl]
  · intro hu hl
    cases snd with
    | ok v => simp [with_relogin, hu, hl]
    | error m2 => simp [with_relogin, hu, hl]
  · intro hu
    simp [with_relogin, hu]

def c4WitnessEnv : CallEnv :=
  ⟨⟨false, false, true, true, true⟩, .error "401".data, .ok 5, []⟩

theorem C4_witness :
    (with_relogin c4WitnessEnv).forcedRelogins = 1 ∧
      (with_relogin c4WitnessEnv).fnCalls = 2 ∧
      (with_relogin c4WitnessEnv).result = .ok 5 := by
  have h := (C4_with_relogin c4WitnessEnv "401".data rfl).1 (by decide) (by decide)
  exact ⟨h.1, h.2.1, h.2.2.1 5 rfl⟩

def c4CexEnv : CallEnv :=
  ⟨⟨false, false, true, true, false⟩, .error "401".data, .ok 7,
    "login failed".data⟩

/-- C4 counterexample: when the first call fails with a 401 and the forced
re-login itself raises (upstream email login fails), the wrapper performs
one forced re-login but zero retries of the original call — the original
call runs exactly once — contradicting "exactly one forced re-login
followed by exactly one retry of the original call". -/
theorem C4_counterexample :
    (with_relogin c4CexEnv).forcedRelogins = 1 ∧
      (with_relogin c4CexEnv).fnCalls = 1 ∧
      (with_relogin c4CexEnv).result = .error "login failed".data :=
  ⟨rfl, rfl, rfl⟩

/-! ## The stream endpoint (`stream`, index.py lines 259-341)

The handler is embedded as a pure function over an environment describing
the outcomes of its collaborators, returning the response (or the
propagated exception) together with a trace of the `get_download_url`
calls issued and the `set_cached_url` writes performed.

`DownloadResp` models the upstream download-link response: `octet` is
`links["application/octet-stream"]["url"]` when that key is present, and
`medias` lists `medias[i]["link"]["url"]`.  `env.download` is the final
outcome of `with_relogin(pk.get_download_url, fid)` (one resolution round,
which internally may retry once after a 401, per `with_relogin` above).
`env.cache` is `get_cached_url` (already `None` on a redis error, lines
42-46); `set_cached_url` swallows errors, so a write is just recorded. -/

structure DownloadResp where
  octet : Option (List Char)
  medias : List (List Char)
deriving DecidableEq

/-- Link selection inside the handler (lines 271-277 and 322-328). -/
def resolveUrl (d : DownloadResp) : Option (List Char) :=
  match d.octet with
  | some u => some u
  | none =>
    match d.medias with
    | [] => none
    | m :: _ => some m

/-- Python truthiness of the `url` variable (`if not url`). -/
def truthy : Option (List Char) → Bool
  | none => false
  | some u => !u.isEmpty

structure StreamEnv where
  authOk : Except (List Char) Unit
  cache : List Char → Option (List Char)
  download : List Char → Except (List Char) DownloadResp
  meta : Except (List Char) (List Char × List Char)
  listing : Except (List Char) (List FileEntry)

structure StreamItem where
  name : List Char
  title : List Char
  url : List Char
deriving DecidableEq

structure StreamOut where
  result : Except (List Char) (List StreamItem)
  downloadCalls : List (List Char)
  cacheWrites : List (List Char × List Char)

def prependItem (it : StreamItem) (o : StreamOut) : StreamOut :=
  ⟨match o.result with
   | .ok l => .ok (it :: l)
   | .error e => .error e,
   o.downloadCalls, o.cacheWrites⟩

def addTrace (calls : List (List Char))
    (writes : List (List Char × List Char)) (o : StreamOut) : StreamOut :=
  ⟨o.result, calls ++ o.downloadCalls, writes ++ o.cacheWrites⟩

/-- Direct playback branch (lines 262-288), after the client was obtained:
return the cached URL if truthy, otherwise resolve, cache and return the
resolved link, with `{"streams": []}` when nothing playable exists. -/
def streamDirect (env : StreamEnv) (fileId : List Char) : StreamOut :=
  if truthy (env.cache fileId) then
    ⟨.ok [⟨"PikPak".data, "PikPak Direct".data, (env.cache fileId).getD []⟩],
      [], []⟩
  else
    match env.download fileId with
    | .error e => ⟨.error e, [fileId], []⟩
    | .ok d =>
      match resolveUrl d with
      | none => ⟨.ok [], [fileId], []⟩
      | some u =>
        if u.isEmpty then ⟨.ok [], [fileId], []⟩
        else
          ⟨.ok [⟨"PikPak".data, "PikPak Direct".data, u⟩], [fileId],
            [(fileId, u)]⟩

/-- URL resolution for one matched file in the movie loop (lines 318-333);
`restOut` is the outcome of the remaining iterations.  A raised exception
aborts the loop, so the remaining trace is dropped; an unplayable file is
skipped (`continue`, line 331). -/
def imdbResolve (env : StreamEnv) (name fid : List Char)
    (restOut : StreamOut) : StreamOut :=
  match env.download fid with
  | .error e => ⟨.error e, [fid], []⟩
  | .ok d =>
    match resolveUrl d with
    | none => addTrace [fid] [] restOut
    | some u =>
      if u.isEmpty then addTrace [fid] [] restOut
      else
        addTrace [fid] [(fid, u)]
          (prependItem ⟨"PikPak".data, name, u⟩ restOut)

/-- The movie matching loop (lines 300-341). -/
def imdbLoop (env : StreamEnv) (movieN year : List Char) :
    List FileEntry → StreamOut
  | [] => ⟨.ok [], [], []⟩
  | f :: rest =>
    if matchesQuery movieN year f then
      match f.name, f.id with
      | some name, some fid =>
        if truthy (env.cache fid) then
          prependItem ⟨"PikPak".data, name, (env.cache fid).getD []⟩
            (imdbLoop env movieN year rest)
        else imdbResolve env name fid (imdbLoop env movieN year rest)
      | _, _ => imdbLoop env movieN year rest
    else imdbLoop env movieN year rest

def pikpakTag : List Char := "pikpak:".data

/-- Models `id.replace("pikpak:", "")`: left-to-right, non-overlapping
removal of every occurrence.  The fuel argument starts at the list length,
which bounds the number of scanning steps since the pattern is non-empty. -/
def removeAllAux (pat : List Char) : Nat → List Char → List Char
  | _, [] => []
  | 0, l => l
  | fuel + 1, c :: rest =>
    if pat.isPrefixOf (c :: rest) then
      removeAllAux pat fuel ((c :: rest).drop pat.length)
    else c :: removeAllAux pat fuel rest

def removeAll (pat l : List Char) : List Char :=
  removeAllAux pat l.length l

example : removeAll pikpakTag "pikpak:abcpikpak:def".data = "abcdef".data := by
  decide

def movieStr : List Char := "movie".data

/-- The full stream endpoint (lines 259-341). -/
def stream (ty reqId : List Char) (env : StreamEnv) : StreamOut :=
  if pikpakTag.isPrefixOf reqId then
    match env.authOk with
    | .error e => ⟨.error e, [], []⟩
    | .ok _ => streamDirect env (removeAll pikpakTag reqId)
  else if ty ≠ movieStr then ⟨.ok [], [], []⟩
  else
    match env.meta with
    | .error e => ⟨.error e, [], []⟩
    | .ok tup =>
      match env.authOk with
      | .error e => ⟨.error e, [], []⟩
      | .ok _ =>
        match env.listing with
        | .error e => ⟨.error e, [], []⟩
        | .ok files => imdbLoop env (normalize tup.1) tup.2 files

/-! ### Claims about the stream endpoint -/

def c2Env : StreamEnv :=
  ⟨.ok (), fun _ => none, fun _ => .ok ⟨none, []⟩,
    .error "cinemeta unreachable".data, .ok []⟩

/-- C2: the stream endpoint has no exception handler: when the metadata
lookup raises (`get_movie_info`, lines 93-97, has no try/except and the
handler does not catch either), the raw exception propagates to the caller
instead of a well-formed `{"streams": []}` body.  This evaluates the
embedded handler at such a failing environment. -/
theorem C2_meta_failure_propagates :
    (stream movieStr "tt0000001".data c2Env).result =
      .error "cinemeta unreachable".data := rfl

/-- C5: with no cached URL, link resolution prefers the primary
octet-stream link when present, falls back to the first media variant's
link when the primary is absent and the variant list is non-empty, and
returns `{"streams": []}` (not an error) when neither is present. -/
theorem C5_url_resolution (env : StreamEnv) (fid : List Char)
    (d : DownloadResp)
    (hc : truthy (env.cache fid) = false)
    (hd : env.download fid = .ok d) :
    (∀ u, d.octet = some u → u.isEmpty = false →
      (streamDirect env fid).result =
        .ok [⟨"PikPak".data, "PikPak Direct".data, u⟩]) ∧
    (∀ u rest, d.octet = none → d.medias = u :: rest → u.isEmpty = false →
      (streamDirect env fid).result =
        .ok [⟨"PikPak".data, "PikPak Direct".data, u⟩]) ∧
    (d.octet = none → d.medias = [] →
      (streamDirect env fid).result = .ok []) := by
  refine ⟨?_, ?_, ?_⟩
  · intro u ho hne
    simp [streamDirect, hc, hd, resolveUrl, ho, hne]
  · intro u rest ho hm hne
    simp [streamDirect, hc, hd, resolveUrl, ho, hm, hne]
  · intro ho hm
    simp [streamDirect, hc, hd, resolveUrl, ho, hm]

def c5Env : StreamEnv :=
  ⟨.ok (), fun _ => none, fun _ => .ok ⟨some "u1".data, []⟩,
    .ok ("T".data, []), .ok []⟩

theorem C5_witness :
    (streamDirect c5Env "f1".data).result =
      .ok [⟨"PikPak".data, "PikPak Direct".data, "u1".data⟩] :=
  (C5_url_resolution c5Env "f1".data ⟨some "u1".data, []⟩ rfl rfl).1
    "u1".data rfl rfl

/-- C9: a truthy cache entry is returned with no download-link call; a
cache miss issues exactly one resolution round and, on success, stores the
resolved URL; consequently a second request for the same file id that sees
the stored entry issues no further call — one call across both requests. -/
theorem C9_url_cache (env env2 : StreamEnv) (fid u : List Char)
    (d : DownloadResp) (v : List Char) :
    (env.cache fid = some u → u.isEmpty = false →
      (streamDirect env fid).downloadCalls = [] ∧
      (streamDirect env fid).result =
        .ok [⟨"PikPak".data, "PikPak Direct".data, u⟩]) ∧
    (truthy (env.cache fid) = false →
      (streamDirect env fid).downloadCalls = [fid]) ∧
    (truthy (env.cache fid) = false → env.download fid = .ok d →
      resolveUrl d = some v → v.isEmpty = false →
      (streamDirect env fid).cacheWrites = [(fid, v)] ∧
      (env2.cache fid = some v →
        ((streamDirect env fid).downloadCalls ++
          (streamDirect env2 fid).downloadCalls).length = 1)) := by
  refine ⟨?_, ?_, ?_⟩
  · intro hc hne
    simp [streamDirect, truthy, hc, hne]
  · intro hc
    unfold streamDirect
    rw [if_neg (by simp [hc])]
    rcases env.download fid with e | d2
    · rfl
    · rcases hr : resolveUrl d2 with _ | u2
      · simp [hr]
      · simp only [hr]
        split <;> rfl
  · intro hc hd hv hne
    constructor
    · simp [streamDirect, hc, hd, hv, hne]
    · intro h2
      have hc2 : truthy (env2.cache fid) = true := by
        simp [truthy, h2, hne]
      have hfst : (streamDirect env fid).downloadCalls = [fid] := by
        unfold streamDirect
        rw [if_neg (by simp [hc]), hd]
        simp [hv, hne]
      have hsnd : (streamDirect env2 fid).downloadCalls = [] := by
        unfold streamDirect
        rw [if_pos hc2]
      rw [hfst, hsnd]
      rfl

def c9Env : StreamEnv :=
  ⟨.ok (), fun _ => none, fun _ => .ok ⟨some "u2".data, []⟩,
    .ok ("T".data, []), .ok []⟩

def c9Env2 : StreamEnv :=
  ⟨.ok (), fun _ => some "u2".data, fun _ => .ok ⟨some "u2".data, []⟩,
    .ok ("T".data, []), .ok []⟩

theorem C9_witness :
    ((streamDirect c9Env "f2".data).downloadCalls ++
      (streamDirect c9Env2 "f2".data).downloadCalls).length = 1 :=
  ((C9_url_cache c9Env c9Env2 "f2".data "u2".data ⟨some "u2".data, []⟩
      "u2".data).2.2 rfl rfl rfl rfl).2 rfl

def c10Env : StreamEnv :=
  ⟨.ok (), fun _ => none, fun _ => .ok ⟨some "u3".data, []⟩,
    .ok ("T".data, []), .ok []⟩

/-- C10: a request id starting with "pikpak:" takes the direct-file path
for every value of the type path parameter (the `type != "movie"` check
only guards the metadata path), and the file id sent upstream is the
request id with every occurrence of "pikpak:" removed — shown on an id
with a second, non-leading occurrence. -/
theorem C10_direct_path :
    (∀ ty1 ty2 reqId env, pikpakTag.isPrefixOf reqId = true →
      stream ty1 reqId env = stream ty2 reqId env) ∧
    (stream "series".data "pikpak:abcpikpak:def".data c10Env).downloadCalls =
      ["abcdef".data] := by
  constructor
  · intro ty1 ty2 reqId env h
    simp [stream, h]
  · rfl

theorem C10_witness :
    stream movieStr "pikpak:x1".data c10Env =
      stream "series".data "pikpak:x1".data c10Env :=
  C10_direct_path.1 movieStr "series".data "pikpak:x1".data c10Env
    (by decide)

/-! ## Concurrent cold logins (index.py lines 126-163)

`index.py` acquires no distributed lock anywhere: the only redis writes are
the URL cache and the credential record.  Two horizontally-scaled workers
(each with its own cold module-global `client`) running `get_client`
concurrently are modelled as three-step programs over the shared record
store: load the record (`load_auth`), then probe it if one was found or
perform the email login if not, then save (`save_auth`).  A schedule picks
which worker steps next. -/

structure Worker where
  pc : Nat
  sawAuth : Bool
  logins : Nat
deriving DecidableEq

structure Sys where
  store : Bool
  w1 : Worker
  w2 : Worker
deriving DecidableEq

def stepWorker (store : Bool) (w : Worker) : Bool × Worker :=
  match w.pc with
  | 0 => (store, ⟨1, store, w.logins⟩)
  | 1 => (store, ⟨2, w.sawAuth, if w.sawAuth then w.logins else w.logins + 1⟩)
  | 2 => (true, ⟨3, w.sawAuth, w.logins⟩)
  | _ => (store, w)

def runSched (s : Sys) : List Bool → Sys
  | [] => s
  | pick :: rest =>
    if pick then
      let r := stepWorker s.store s.w1
      runSched ⟨r.1, r.2, s.w2⟩ rest
    else
      let r := stepWorker s.store s.w2
      runSched ⟨r.1, s.w1, r.2⟩ rest

def c6Init : Sys := ⟨false, ⟨0, false, 0⟩, ⟨0, false, 0⟩⟩

def c6BadSched : List Bool := [true, false, true, false, true, false]

def c6SeqSched : List Bool := [true, true, true, false, false, false]

/-- C6: `get_client` acquires no per-account lock of any kind, so under the
interleaving in which both concurrent cold requests load the empty
credential store before either saves, both issue a full email login — two
full logins reach the upstream API, against the claimed at-most-one
guarantee.  Under the fully sequential schedule the second worker restores
the saved record and probes instead, giving one login, so the excess login
is exactly what the missing lock was specified to prevent. -/
theorem C6_no_lock_double_login :
    ((runSched c6Init c6BadSched).w1.logins +
      (runSched c6Init c6BadSched).w2.logins = 2) ∧
    ((runSched c6Init c6SeqSched).w1.logins +
      (runSched c6Init c6SeqSched).w2.logins = 1) := by
  decide

end PikPak
